import Mathlib

/-!
Verification of the marketing/sales dashboard's metric-derivation core.

The dashboard pages compute every ratio with pandas column division (or
plain Python division guarded by explicit `if denominator > 0 else 0`
checks).  We embed the arithmetic shallowly:

* exact numeric values are rationals (`ℚ`);
* pandas/numpy float division by zero does not raise: `x / 0` is `+inf`
  for `x > 0`, `-inf` for `x < 0` and `NaN` for `x = 0`.  The type
  `PFloat` records a finite rational or one of those three specials, and
  `pdiv` is that division;
* `fillna(0)` replaces `NaN` (only `NaN`, not the infinities) by `0`;
* Python's `int(...)` truncates toward zero (`pyInt`).

Each dashboard page's data pipeline is translated from its source file:
per-row calculated columns, guarded aggregate KPIs, the GTM monthly
merge / forward-fill / cumulative pipeline, the rep tier classifier with
pandas linear-interpolation quantiles, and the what-if simulator.
-/

/-- Pandas float value over exact rationals: finite, `+inf`, `-inf` or `NaN`. -/
inductive PFloat where
  | fin (q : ℚ)
  | pinf
  | ninf
  | nan
deriving DecidableEq, Repr

/-- Pandas/numpy division: never raises; zero denominator yields an
infinity (sign of the numerator) or `NaN` for `0 / 0`. -/
def pdiv (a b : ℚ) : PFloat :=
  if b = 0 then (if 0 < a then .pinf else if a < 0 then .ninf else .nan)
  else .fin (a / b)

/-- `Series.fillna(0)`: replaces `NaN` by `0`, leaves infinities alone. -/
def PFloat.fillna0 : PFloat → PFloat
  | .nan => .fin 0
  | x => x

/-- Multiplication of a pandas float by a finite rational constant
(IEEE sign rules for the infinities; `inf * 0 = NaN`). -/
def PFloat.mulC (x : PFloat) (c : ℚ) : PFloat :=
  match x with
  | .fin q => .fin (q * c)
  | .pinf => if 0 < c then .pinf else if c < 0 then .ninf else .nan
  | .ninf => if 0 < c then .ninf else if c < 0 then .pinf else .nan
  | .nan => .nan

/-- Division of a pandas float by a finite rational constant. -/
def PFloat.divC (x : PFloat) (c : ℚ) : PFloat :=
  match x with
  | .fin q => pdiv q c
  | .pinf => if 0 < c then .pinf else if c < 0 then .ninf else .nan
  | .ninf => if 0 < c then .ninf else if c < 0 then .pinf else .nan
  | .nan => .nan

/-- A pandas float is finite when it is neither `NaN` nor an infinity. -/
def PFloat.isFinite : PFloat → Prop
  | .fin _ => True
  | _ => False

/-- Python `int(...)` applied to an exact value: truncation toward zero. -/
def pyInt (q : ℚ) : ℤ :=
  if q < 0 then ⌈q⌉ else ⌊q⌋

/-- One row of the marketing CSV (`date` already normalized to its month). -/
structure MarketingRow where
  month : ℕ
  campaign_name : ℕ
  cost : ℚ
  mql : ℚ
  sal : ℚ
  sql : ℚ
  closed : ℚ
  mrr : ℚ
deriving DecidableEq, Repr, Inhabited

/-- One row of the service CSV; `date` is an abstract day index and
`month` its month normalization (the service table has one row per month). -/
structure ServiceRow where
  date : ℕ
  month : ℕ
  book_of_business_bom : ℚ
  book_of_business_eom : ℚ
  customer_accounts_bom : ℚ
  churn_mrr : ℚ
  churn_accounts : ℚ
  growth_mrr : ℚ
  growth_accounts : ℚ
deriving DecidableEq, Repr, Inhabited

/-- One row of the sales CSV. -/
structure SalesRow where
  month : ℕ
  manager : ℕ
  sales_rep : ℕ
  sales : ℚ
  quota : ℚ
deriving DecidableEq, Repr, Inhabited

/-! ### Page `2_Marketing_Performance.py` -/

/-- Per-row calculated columns of `load_data` in `2_Marketing_Performance.py`
(lines 24-28): unguarded pandas divisions. -/
structure MarketingCalc where
  mrr_per_dollar : PFloat
  cpa_closed : PFloat
  mql_to_sal_rate : PFloat
  sal_to_sql_rate : PFloat
  sql_to_closed_rate : PFloat
deriving DecidableEq, Repr

/-- `load_data` of `2_Marketing_Performance.py`: the five per-row ratio columns. -/
def marketingCalc (r : MarketingRow) : MarketingCalc where
  mrr_per_dollar := pdiv r.mrr r.cost
  cpa_closed := pdiv r.cost r.closed
  mql_to_sal_rate := pdiv r.sal r.mql
  sal_to_sql_rate := pdiv r.sql r.sal
  sql_to_closed_rate := pdiv r.closed r.sql

/-- `int(filtered_df['mql'].sum())` (page 2 line 70). -/
def totalMql (l : List MarketingRow) : ℤ := pyInt ((l.map (·.mql)).sum)

/-- `int(filtered_df['sal'].sum())` (page 2 line 71). -/
def totalSal (l : List MarketingRow) : ℤ := pyInt ((l.map (·.sal)).sum)

/-- `int(filtered_df['sql'].sum())` (page 2 line 72). -/
def totalSql (l : List MarketingRow) : ℤ := pyInt ((l.map (·.sql)).sum)

/-- `int(filtered_df['closed'].sum())` (page 2 line 73). -/
def totalClosed (l : List MarketingRow) : ℤ := pyInt ((l.map (·.closed)).sum)

/-- `int(filtered_df['cost'].sum())` (page 2 line 74). -/
def totalCost (l : List MarketingRow) : ℤ := pyInt ((l.map (·.cost)).sum)

/-- `int(filtered_df['mrr'].sum())` (page 2 line 75). -/
def totalMrr (l : List MarketingRow) : ℤ := pyInt ((l.map (·.mrr)).sum)

/-- `overall_mrr_per_dollar = total_mrr / total_cost if total_cost > 0 else 0`. -/
def overallMrrPerDollar (l : List MarketingRow) : ℚ :=
  if 0 < totalCost l then (totalMrr l : ℚ) / (totalCost l : ℚ) else 0

/-- `mql_sal_rate = total_sal / total_mql if total_mql > 0 else 0`. -/
def aggMqlSalRate (l : List MarketingRow) : ℚ :=
  if 0 < totalMql l then (totalSal l : ℚ) / (totalMql l : ℚ) else 0

/-- `sal_sql_rate = total_sql / total_sal if total_sal > 0 else 0`. -/
def aggSalSqlRate (l : List MarketingRow) : ℚ :=
  if 0 < totalSal l then (totalSql l : ℚ) / (totalSal l : ℚ) else 0

/-- `sql_closed_rate = total_closed / total_sql if total_sql > 0 else 0`. -/
def aggSqlClosedRate (l : List MarketingRow) : ℚ :=
  if 0 < totalSql l then (totalClosed l : ℚ) / (totalSql l : ℚ) else 0

/-! ### Page `4_Customer_Success.py` -/

/-- Per-row calculated columns of `load_data` in `4_Customer_Success.py`
(lines 31-41): unguarded pandas divisions. -/
structure ServiceCalc where
  grr : PFloat
  revenue_churn_rate : PFloat
  customer_churn_rate : PFloat
  arpa : PFloat
  net_mrr_growth : ℚ
deriving DecidableEq, Repr

/-- `load_data` of `4_Customer_Success.py`: the per-row metric columns. -/
def serviceCalc (r : ServiceRow) : ServiceCalc where
  grr := pdiv (r.book_of_business_bom - r.churn_mrr) r.book_of_business_bom
  revenue_churn_rate := pdiv r.churn_mrr r.book_of_business_bom
  customer_churn_rate := pdiv r.churn_accounts r.customer_accounts_bom
  arpa := pdiv r.book_of_business_bom r.customer_accounts_bom
  net_mrr_growth := r.growth_mrr - r.churn_mrr

/-! ### Page `3_Sales_Performance.py` -/

/-- Per-row `merged_df['quota_attainment'] = merged_df['sales'] / merged_df['quota']`
(page 3 line 43): unguarded pandas division. -/
def quotaAttainmentRow (r : SalesRow) : PFloat := pdiv r.sales r.quota

/-- `int(filtered_df['sales'].sum())` (page 3 line 83). -/
def totalSales (l : List SalesRow) : ℤ := pyInt ((l.map (·.sales)).sum)

/-- `int(filtered_df['quota'].sum())` (page 3 line 84). -/
def totalQuota (l : List SalesRow) : ℤ := pyInt ((l.map (·.quota)).sum)

/-- `overall_attainment = total_sales / total_quota if total_quota > 0 else 0`
(page 3 line 85). -/
def overallAttainment (l : List SalesRow) : ℚ :=
  if 0 < totalQuota l then (totalSales l : ℚ) / (totalQuota l : ℚ) else 0

/-- Pandas `Series.quantile(p)` with the default linear interpolation:
over the ascending sorted values, position `h = p * (n - 1)`, result
`x_⌊h⌋ + (h - ⌊h⌋) * (x_⌊h⌋₊₁ - x_⌊h⌋)` (clamped at the last element). -/
def quantile (p : ℚ) (l : List ℚ) : ℚ :=
  let s := List.insertionSort (· ≤ ·) l
  let n := s.length
  let h := p * ((n : ℚ) - 1)
  let i := (⌊h⌋).toNat
  let x1 := s.getD i 0
  let x2 := s.getD (min (i + 1) (n - 1)) 0
  x1 + (h - (i : ℚ)) * (x2 - x1)

/-- `top_20_threshold = rep_attainment.quantile(0.8)` (page 3 line 140),
over the mapping from sales rep to mean quota attainment. -/
def topThreshold (l : List (ℕ × ℚ)) : ℚ := quantile (4 / 5) (l.map (·.2))

/-- `bottom_10_threshold = rep_attainment.quantile(0.1)` (page 3 line 141). -/
def bottomThreshold (l : List (ℕ × ℚ)) : ℚ := quantile (1 / 10) (l.map (·.2))

/-- `top_performers = rep_attainment[rep_attainment >= top_20_threshold].index.tolist()`. -/
def topPerformers (l : List (ℕ × ℚ)) : List ℕ :=
  (l.filter (fun rv => decide (topThreshold l ≤ rv.2))).map (·.1)

/-- `bottom_performers = rep_attainment[rep_attainment <= bottom_10_threshold].index.tolist()`. -/
def bottomPerformers (l : List (ℕ × ℚ)) : List ℕ :=
  (l.filter (fun rv => decide (rv.2 ≤ bottomThreshold l))).map (·.1)

/-- `middle_performers`: strictly between the two thresholds (page 3 line 144). -/
def middlePerformers (l : List (ℕ × ℚ)) : List ℕ :=
  (l.filter (fun rv => decide (bottomThreshold l < rv.2 ∧ rv.2 < topThreshold l))).map (·.1)

/-! ### Page `1_GTM_Health.py`: the monthly GTM pipeline -/

/-- Does the service table have at least one row in month `m`? -/
def hasServiceRows (sl : List ServiceRow) (m : ℕ) : Bool :=
  sl.any (fun r => r.month == m)

/-- Does the marketing table have at least one row in month `m`? -/
def hasMarketingRows (ml : List MarketingRow) (m : ℕ) : Bool :=
  ml.any (fun r => r.month == m)

/-- `total_new_customers=('growth_accounts', 'sum')` for month `m`. -/
def aggNewCustomers (sl : List ServiceRow) (m : ℕ) : ℚ :=
  ((sl.filter (fun r => r.month == m)).map (·.growth_accounts)).sum

/-- `bom_mrr=('book_of_business_bom', 'sum')` for month `m`. -/
def aggBomMrr (sl : List ServiceRow) (m : ℕ) : ℚ :=
  ((sl.filter (fun r => r.month == m)).map (·.book_of_business_bom)).sum

/-- `bom_accounts=('customer_accounts_bom', 'sum')` for month `m`. -/
def aggBomAccounts (sl : List ServiceRow) (m : ℕ) : ℚ :=
  ((sl.filter (fun r => r.month == m)).map (·.customer_accounts_bom)).sum

/-- `total_marketing_cost=('cost', 'sum')` for month `m`; the later
`fillna(0)` makes a month without marketing rows a `0` — the same value
this empty sum produces. -/
def aggMarketingCost (ml : List MarketingRow) (m : ℕ) : ℚ :=
  ((ml.filter (fun r => r.month == m)).map (·.cost)).sum

/-- `total_mqls=('mql', 'sum')` for month `m` (zero-filled likewise). -/
def aggMqls (ml : List MarketingRow) (m : ℕ) : ℚ :=
  ((ml.filter (fun r => r.month == m)).map (·.mql)).sum

/-- `start_date = service_df['month_year'].min()`. -/
def minServiceMonth (sl : List ServiceRow) : ℕ :=
  ((sl.map (·.month)).min?).getD 0

/-- `end_date = service_df['month_year'].max()`. -/
def maxServiceMonth (sl : List ServiceRow) : ℕ :=
  ((sl.map (·.month)).max?).getD 0

/-- `pd.date_range(start=start_date, end=end_date, freq='MS')`: every month
from the service minimum to the service maximum. -/
def monthRange (sl : List ServiceRow) : List ℕ :=
  List.range' (minServiceMonth sl) (maxServiceMonth sl + 1 - minServiceMonth sl)

/-- One row of `gtm_df` after the merge, `fillna(0)` of the marketing
columns and forward-fill of the three service columns. -/
structure GtmRow where
  month : ℕ
  total_marketing_cost : ℚ
  total_mqls : ℚ
  total_new_customers : ℚ
  bom_mrr : ℚ
  bom_accounts : ℚ
deriving DecidableEq, Repr, Inhabited

/-- The carried forward-fill state: the last seen (new customers, BOM MRR,
BOM accounts) triple, `none` before any service month (a leading `NaN`,
turned into `0` by the final `fillna(0)`). -/
def ffillTriple (cur : Option (ℚ × ℚ × ℚ)) : ℚ × ℚ × ℚ :=
  cur.getD (0, 0, 0)

/-- Walk the month axis carrying the forward-fill state
(`gtm_df[['bom_mrr','bom_accounts','total_new_customers']].ffill()`). -/
def gtmGo (ml : List MarketingRow) (sl : List ServiceRow) :
    List ℕ → Option (ℚ × ℚ × ℚ) → List GtmRow
  | [], _ => []
  | m :: ms, carry =>
    let cur := if hasServiceRows sl m then
        some (aggNewCustomers sl m, aggBomMrr sl m, aggBomAccounts sl m)
      else carry
    { month := m
      total_marketing_cost := aggMarketingCost ml m
      total_mqls := aggMqls ml m
      total_new_customers := (ffillTriple cur).1
      bom_mrr := (ffillTriple cur).2.1
      bom_accounts := (ffillTriple cur).2.2 } :: gtmGo ml sl ms cur

/-- `gtm_df` after merging, zero-filling the marketing columns and
forward-filling the service columns (page 1 lines 56-67). -/
def gtmRows (ml : List MarketingRow) (sl : List ServiceRow) : List GtmRow :=
  gtmGo ml sl (monthRange sl) none

/-- Running (inclusive) cumulative sum with accumulator, for `Series.cumsum()`. -/
def cumsumFrom (acc : ℚ) : List ℚ → List ℚ
  | [] => []
  | x :: xs => (acc + x) :: cumsumFrom (acc + x) xs

/-- `Series.cumsum()`: inclusive left-to-right running sums. -/
def cumsum (l : List ℚ) : List ℚ := cumsumFrom 0 l

/-- `SALES_COST_MULTIPLIER = 3` on the GTM page. -/
def SALES_COST_MULTIPLIER : ℚ := 3

/-- `GROSS_MARGIN = 0.80`. -/
def GROSS_MARGIN : ℚ := 4 / 5

/-- `benchmark_monthly_churn = 0.004` (page 1 line 73). -/
def benchmarkMonthlyChurn : ℚ := 1 / 250

/-- `gtm_df['arpa'] = gtm_df['bom_mrr'] / gtm_df['bom_accounts']` for one row. -/
def gtmArpa (r : GtmRow) : PFloat := pdiv r.bom_mrr r.bom_accounts

/-- `gtm_df['ltv'] = (gtm_df['arpa'] * GROSS_MARGIN) / benchmark_monthly_churn`. -/
def gtmLtv (r : GtmRow) : PFloat :=
  ((gtmArpa r).mulC GROSS_MARGIN).divC benchmarkMonthlyChurn

/-- `gtm_df['total_sm_spend'] = gtm_df['total_marketing_cost'] * SALES_COST_MULTIPLIER`. -/
def smSpendSeq (ml : List MarketingRow) (sl : List ServiceRow) : List ℚ :=
  (gtmRows ml sl).map (fun r => r.total_marketing_cost * SALES_COST_MULTIPLIER)

/-- The per-month new-customer column that is cumulated (page 1 line 79). -/
def newCustSeq (ml : List MarketingRow) (sl : List ServiceRow) : List ℚ :=
  (gtmRows ml sl).map (·.total_new_customers)

/-- `gtm_df['cumulative_sm_spend'] = gtm_df['total_sm_spend'].cumsum()`. -/
def cumSpendSeq (ml : List MarketingRow) (sl : List ServiceRow) : List ℚ :=
  cumsum (smSpendSeq ml sl)

/-- `gtm_df['cumulative_new_customers'] = gtm_df['total_new_customers'].cumsum()`. -/
def cumCustSeq (ml : List MarketingRow) (sl : List ServiceRow) : List ℚ :=
  cumsum (newCustSeq ml sl)

/-- `gtm_df['cumulative_cac'] = cumulative_sm_spend / cumulative_new_customers`
pointwise (page 1 line 80). -/
def cumCacSeq (ml : List MarketingRow) (sl : List ServiceRow) : List PFloat :=
  List.zipWith pdiv (cumSpendSeq ml sl) (cumCustSeq ml sl)

/-- The `cumulative_cac` column of the returned dataframe, after the final
`gtm_df.fillna(0)` (page 1 line 87): `NaN` becomes `0`, infinities persist. -/
def returnedCumCac (ml : List MarketingRow) (sl : List ServiceRow) : List PFloat :=
  (cumCacSeq ml sl).map PFloat.fillna0

/-- `filtered_df = gtm_df[(month_year >= start) & (month_year <= end)]`
(page 1 line 109), with the cumulative columns attached to each row. -/
structure GtmCacRow where
  month : ℕ
  cumulative_cac : PFloat
deriving DecidableEq, Repr

/-- The month / cumulative-CAC pairs of `gtm_df` in order. -/
def gtmCacRows (ml : List MarketingRow) (sl : List ServiceRow) : List GtmCacRow :=
  List.zipWith (fun r c => { month := r.month, cumulative_cac := c })
    (gtmRows ml sl) (cumCacSeq ml sl)

/-- The GTM date filter restricted to `[s, e]`. -/
def filteredGtm (ml : List MarketingRow) (sl : List ServiceRow) (s e : ℕ) :
    List GtmCacRow :=
  (gtmCacRows ml sl).filter (fun r => decide (s ≤ r.month) && decide (r.month ≤ e))

/-- `overall_cac = filtered_df['cumulative_cac'].iloc[-1] if not filtered_df.empty else 0`
(page 1 line 118). -/
def overallCac (ml : List MarketingRow) (sl : List ServiceRow) (s e : ℕ) : PFloat :=
  match (filteredGtm ml sl s e).getLast? with
  | some r => r.cumulative_cac
  | none => .fin 0

/-! ### Page `Growth Levers & Projections.py` -/

/-- The baseline snapshot returned by `load_baselines` (lines 37-68).
The three funnel rates are unguarded numpy divisions; the other ratios
carry explicit `if denominator > 0 else 0` guards. -/
structure Baselines where
  mql_sal_rate : PFloat
  sal_sql_rate : PFloat
  win_rate : PFloat
  avg_deal_size : ℚ
  churn_rate : ℚ
  current_mrr : ℚ
deriving DecidableEq, Repr

/-- Sum of a service column over all rows. -/
def serviceSum (f : ServiceRow → ℚ) (sl : List ServiceRow) : ℚ := (sl.map f).sum

/-- Sum of a marketing column over all rows (no `int(...)` on this page). -/
def marketingSum (f : MarketingRow → ℚ) (ml : List MarketingRow) : ℚ := (ml.map f).sum

/-- `service_df.sort_values('date', ascending=False).iloc[0]`: the row with
the latest date (any descending sort puts a strictly latest row first). -/
def latestServiceRow (sl : List ServiceRow) : ServiceRow :=
  sl.foldl (fun best r => if best.date < r.date then r else best) (sl.headD default)

/-- `load_baselines` of the growth page: pooled dataset-wide totals. -/
def load_baselines (ml : List MarketingRow) (sl : List ServiceRow) : Baselines where
  mql_sal_rate := pdiv (marketingSum (·.sal) ml) (marketingSum (·.mql) ml)
  sal_sql_rate := pdiv (marketingSum (·.sql) ml) (marketingSum (·.sal) ml)
  win_rate := pdiv (marketingSum (·.closed) ml) (marketingSum (·.sql) ml)
  avg_deal_size :=
    if 0 < serviceSum (·.growth_accounts) sl then
      serviceSum (·.growth_mrr) sl / serviceSum (·.growth_accounts) sl
    else 0
  churn_rate :=
    if 0 < serviceSum (·.book_of_business_bom) sl then
      serviceSum (·.churn_mrr) sl / serviceSum (·.book_of_business_bom) sl
    else 0
  current_mrr := (latestServiceRow sl).book_of_business_eom

/-- The simulator lever values after the percent-to-fraction conversion. -/
structure ScenarioInputs where
  mqls_per_month : ℚ
  mql_sal_rate : ℚ
  sal_sql_rate : ℚ
  win_rate : ℚ
  avg_deal_size : ℚ
  target_quota : ℚ
  churn_rate : ℚ
  expansion_rate : ℚ
deriving DecidableEq, Repr

/-- The simulator's projected outputs. -/
structure Projection where
  new_customers_per_month : ℚ
  new_mrr_per_month : ℚ
  required_pipeline : ℚ
  required_coverage : ℚ
  sales_velocity : ℚ
  expansion_mrr : ℚ
  churned_mrr : ℚ
  net_new_mrr : ℚ
  nrr : ℚ
deriving DecidableEq, Repr

/-- The calculation engine of the growth page (lines 185-201), a pure
function of the baseline `current_mrr` and the lever inputs. -/
def project (current_mrr : ℚ) (inp : ScenarioInputs) : Projection :=
  let new_customers :=
    inp.mqls_per_month * inp.mql_sal_rate * inp.sal_sql_rate * inp.win_rate
  let new_mrr := new_customers * (inp.avg_deal_size / 12)
  let expansion := current_mrr * inp.expansion_rate
  let churned := current_mrr * inp.churn_rate
  { new_customers_per_month := new_customers
    new_mrr_per_month := new_mrr
    required_pipeline :=
      if 0 < inp.win_rate then inp.target_quota / inp.win_rate else 0
    required_coverage :=
      if 0 < inp.target_quota then
        (if 0 < inp.win_rate then inp.target_quota / inp.win_rate else 0) / inp.target_quota
      else 0
    sales_velocity :=
      if 0 < inp.win_rate then
        ((inp.mqls_per_month * inp.mql_sal_rate * inp.sal_sql_rate) *
          (inp.avg_deal_size / 12) * inp.win_rate) / (92 / (3044 / 100))
      else 0
    expansion_mrr := expansion
    churned_mrr := churned
    net_new_mrr := new_mrr + expansion - churned
    nrr := if 0 < current_mrr then (current_mrr + expansion - churned) / current_mrr else 0 }

/-- All-zero lever values, a convenient concrete `ScenarioInputs`. -/
def zeroLevers : ScenarioInputs :=
  ⟨0, 0, 0, 0, 0, 0, 0, 0⟩

/-! ### Theorems -/

/-- C5: the simulator is deterministic, and `new_customers_per_month` and
`new_mrr_per_month` are exactly linear in `mqls_per_month`: scaling the
MQL input by any factor `k` scales both outputs by `k`, all other inputs
held fixed. -/
theorem scenario_deterministic_and_linear (cm : ℚ) (inp : ScenarioInputs) (k : ℚ) :
    project cm inp = project cm inp ∧
    (project cm { inp with mqls_per_month := k * inp.mqls_per_month }).new_customers_per_month
      = k * (project cm inp).new_customers_per_month ∧
    (project cm { inp with mqls_per_month := k * inp.mqls_per_month }).new_mrr_per_month
      = k * (project cm inp).new_mrr_per_month := by
  refine ⟨rfl, ?_, ?_⟩ <;> simp only [project] <;> ring

/-- C6 counterexample: with `current_mrr = -1` and zero churn and expansion
rates the code returns `nrr = 0` (its guard is `current_mrr > 0`), while the
claimed formula `(current_mrr + expansion - churned) / current_mrr` gives 1,
though `current_mrr ≠ 0`. -/
theorem nrr_guard_counterexample :
    (project (-1) zeroLevers).nrr = 0 ∧
    ((-1 : ℚ) + (-1) * 0 - (-1) * 0) / (-1) = 1 ∧
    (0 : ℚ) ≠ 1 ∧ (-1 : ℚ) ≠ 0 := by
  refine ⟨?_, by norm_num, by norm_num, by norm_num⟩
  simp [project]

/-- C6 amended: `net_new_mrr = new_mrr_per_month + current_mrr * expansion_rate
- current_mrr * churn_rate` always; `nrr` equals
`(current_mrr + expansion_mrr - churned_mrr) / current_mrr` when
`current_mrr > 0` and is `0` when `current_mrr ≤ 0` (in particular at 0). -/
theorem net_new_mrr_and_nrr (cm : ℚ) (inp : ScenarioInputs) :
    (project cm inp).net_new_mrr
      = (project cm inp).new_mrr_per_month + cm * inp.expansion_rate - cm * inp.churn_rate ∧
    (0 < cm → (project cm inp).nrr
      = (cm + cm * inp.expansion_rate - cm * inp.churn_rate) / cm) ∧
    (cm ≤ 0 → (project cm inp).nrr = 0) := by
  refine ⟨rfl, fun h => ?_, fun h => ?_⟩
  · simp [project, h]
  · simp [project, not_lt.mpr h]

/-- Witness for `net_new_mrr_and_nrr` at concrete inputs: the guarded branch
at `current_mrr = 1` and the zero branch at `current_mrr = 0`. -/
theorem net_new_mrr_and_nrr_witness :
    (project 1 { zeroLevers with churn_rate := 1 / 4, expansion_rate := 1 / 2 }).nrr
      = ((1 : ℚ) + 1 * (1 / 2) - 1 * (1 / 4)) / 1 ∧
    (project 0 { zeroLevers with churn_rate := 1 / 4, expansion_rate := 1 / 2 }).nrr = 0 :=
  ⟨(net_new_mrr_and_nrr 1 _).2.1 (by norm_num),
   (net_new_mrr_and_nrr 0 _).2.2 (by norm_num)⟩

/-- A concrete sales row with `sales = 45000` and `quota = 0`. -/
def zeroQuotaRow : SalesRow :=
  ⟨0, 0, 0, 45000, 0⟩

/-- The spec's worked example row: `sales = 45000`, `quota = 50000`. -/
def exampleSalesRow : SalesRow :=
  ⟨0, 0, 0, 45000, 50000⟩

/-- C4 counterexample: the per-row `quota_attainment` column is an
unguarded pandas division, so a record with `quota = 0` and positive sales
gets `+inf`, not the claimed `0`. -/
theorem quota_attainment_zero_quota_counterexample :
    quotaAttainmentRow zeroQuotaRow = PFloat.pinf ∧ PFloat.pinf ≠ PFloat.fin 0 := by
  exact ⟨rfl, by decide⟩

/-- C4 amended: per-row attainment is `sales / quota` whenever `quota ≠ 0`
(0.9 exactly on the spec's example); at `quota = 0` the row gets `±inf`
(`NaN` for zero sales) instead of `0`; the aggregated
`overall_attainment`, which carries an explicit guard, is `0` when the
summed quota is `0`. -/
theorem quota_attainment_amended :
    (∀ r : SalesRow, r.quota ≠ 0 → quotaAttainmentRow r = .fin (r.sales / r.quota)) ∧
    (∀ r : SalesRow, r.quota = 0 → quotaAttainmentRow r =
      (if 0 < r.sales then .pinf else if r.sales < 0 then .ninf else .nan)) ∧
    (∀ l : List SalesRow, totalQuota l = 0 → overallAttainment l = 0) ∧
    quotaAttainmentRow exampleSalesRow = .fin (9 / 10) := by
  refine ⟨fun r h => ?_, fun r h => ?_, fun l h => ?_, ?_⟩
  · simp [quotaAttainmentRow, pdiv, h]
  · simp [quotaAttainmentRow, pdiv, h]
  · simp [overallAttainment, h]
  · norm_num [quotaAttainmentRow, pdiv, exampleSalesRow]

/-- Witness for `quota_attainment_amended` at concrete inputs. -/
theorem quota_attainment_amended_witness :
    quotaAttainmentRow exampleSalesRow = .fin (45000 / 50000) ∧
    quotaAttainmentRow zeroQuotaRow =
      (if 0 < zeroQuotaRow.sales then .pinf else if zeroQuotaRow.sales < 0 then .ninf else .nan) ∧
    overallAttainment [] = 0 :=
  ⟨quota_attainment_amended.1 exampleSalesRow (by norm_num [exampleSalesRow]),
   quota_attainment_amended.2.1 zeroQuotaRow (by norm_num [zeroQuotaRow]),
   quota_attainment_amended.2.2.1 [] (by rfl)⟩

/-- A concrete marketing row with `cost = 0` but `mrr = 5`. -/
def zeroCostRow : MarketingRow :=
  ⟨0, 0, 0, 100, 61, 12, 2, 5⟩

/-- C1 counterexample: the per-row `mrr_per_dollar` column of the marketing
page is an unguarded pandas division, so a row with `cost = 0` and
`mrr = 5` gets `+inf`, not the claimed `0`. -/
theorem ratio_zero_denominator_counterexample :
    (marketingCalc zeroCostRow).mrr_per_dollar = PFloat.pinf ∧
    PFloat.pinf ≠ PFloat.fin 0 := by
  exact ⟨rfl, by decide⟩

/-- C1 amended: the zero-denominator-gives-0 policy holds only for the
aggregated ratios computed with an explicit `if denominator > 0 else 0`
guard.  Every per-row ratio column is an unguarded pandas division: on a
zero denominator it is `NaN` or `±inf`, never a finite value (so never 0);
and the GTM page's final `fillna(0)` turns only the `NaN`s into 0, so a
`cumulative_cac` with positive cumulative spend over zero cumulative
customers stays `+inf` in the returned frame. -/
theorem ratio_zero_denominator_amended :
    (∀ r : MarketingRow,
      (r.cost = 0 → ¬ (marketingCalc r).mrr_per_dollar.isFinite) ∧
      (r.closed = 0 → ¬ (marketingCalc r).cpa_closed.isFinite) ∧
      (r.mql = 0 → ¬ (marketingCalc r).mql_to_sal_rate.isFinite) ∧
      (r.sal = 0 → ¬ (marketingCalc r).sal_to_sql_rate.isFinite) ∧
      (r.sql = 0 → ¬ (marketingCalc r).sql_to_closed_rate.isFinite)) ∧
    (∀ r : ServiceRow,
      (r.book_of_business_bom = 0 →
        ¬ (serviceCalc r).grr.isFinite ∧ ¬ (serviceCalc r).revenue_churn_rate.isFinite) ∧
      (r.customer_accounts_bom = 0 →
        ¬ (serviceCalc r).customer_churn_rate.isFinite ∧ ¬ (serviceCalc r).arpa.isFinite)) ∧
    (∀ l : List MarketingRow,
      (totalCost l = 0 → overallMrrPerDollar l = 0) ∧
      (totalMql l = 0 → aggMqlSalRate l = 0) ∧
      (totalSal l = 0 → aggSalSqlRate l = 0) ∧
      (totalSql l = 0 → aggSqlClosedRate l = 0)) ∧
    (∀ s c : ℚ, c = 0 → 0 < s →
      (pdiv s c).fillna0 = .pinf ∧ (pdiv s c).fillna0 ≠ .fin 0) ∧
    (∀ ml sl, returnedCumCac ml sl =
      List.zipWith (fun s c => (pdiv s c).fillna0) (cumSpendSeq ml sl) (cumCustSeq ml sl)) := by
  have hnf : ∀ a b : ℚ, b = 0 → ¬ (pdiv a b).isFinite := by
    intro a b hb
    subst hb
    by_cases h1 : 0 < a
    · simp [pdiv, h1, PFloat.isFinite]
    · by_cases h2 : a < 0
      · simp [pdiv, h1, h2, PFloat.isFinite]
      · simp [pdiv, h1, h2, PFloat.isFinite]
  refine ⟨fun r => ⟨fun h => hnf _ _ h, fun h => hnf _ _ h, fun h => hnf _ _ h,
      fun h => hnf _ _ h, fun h => hnf _ _ h⟩,
    fun r => ⟨fun h => ⟨hnf _ _ h, hnf _ _ h⟩, fun h => ⟨hnf _ _ h, hnf _ _ h⟩⟩,
    fun l => ⟨fun h => ?_, fun h => ?_, fun h => ?_, fun h => ?_⟩,
    fun s c hc hs => ?_, fun ml sl => ?_⟩
  · simp [overallMrrPerDollar, h]
  · simp [aggMqlSalRate, h]
  · simp [aggSalSqlRate, h]
  · simp [aggSqlClosedRate, h]
  · subst hc
    have hp : pdiv s 0 = .pinf := by simp [pdiv, hs]
    rw [hp]
    exact ⟨rfl, by decide⟩
  · simp [returnedCumCac, cumCacSeq, List.map_zipWith]

/-- Witness for `ratio_zero_denominator_amended` at concrete inputs. -/
theorem ratio_zero_denominator_amended_witness :
    ¬ (marketingCalc zeroCostRow).mrr_per_dollar.isFinite ∧
    overallMrrPerDollar [] = 0 ∧
    (pdiv 5 0).fillna0 = PFloat.pinf :=
  ⟨(ratio_zero_denominator_amended.1 zeroCostRow).1 (by rfl),
   (ratio_zero_denominator_amended.2.2.1 []).1 (by rfl),
   (ratio_zero_denominator_amended.2.2.2.1 5 0 rfl (by norm_num)).1⟩

/-- Two service rows that agree on every column except `churn_mrr`. -/
def sameExceptChurn (a b : ServiceRow) : Prop :=
  a.date = b.date ∧ a.month = b.month ∧
  a.book_of_business_bom = b.book_of_business_bom ∧
  a.book_of_business_eom = b.book_of_business_eom ∧
  a.customer_accounts_bom = b.customer_accounts_bom ∧
  a.churn_accounts = b.churn_accounts ∧
  a.growth_mrr = b.growth_mrr ∧
  a.growth_accounts = b.growth_accounts

theorem hasServiceRows_congr {sl1 sl2 : List ServiceRow}
    (h : List.Forall₂ sameExceptChurn sl1 sl2) (m : ℕ) :
    hasServiceRows sl1 m = hasServiceRows sl2 m := by
  induction h with
  | nil => rfl
  | cons hab _ ih =>
    simp only [hasServiceRows, List.any_cons] at *
    rw [hab.2.1, ih]

theorem aggNewCustomers_congr {sl1 sl2 : List ServiceRow}
    (h : List.Forall₂ sameExceptChurn sl1 sl2) (m : ℕ) :
    aggNewCustomers sl1 m = aggNewCustomers sl2 m := by
  induction h with
  | nil => rfl
  | cons hab _ ih =>
    simp only [aggNewCustomers, List.filter_cons] at *
    rw [hab.2.1]
    split
    · simp only [List.map_cons, List.sum_cons, ih, hab.2.2.2.2.2.2.2]
    · exact ih

theorem aggBomMrr_congr {sl1 sl2 : List ServiceRow}
    (h : List.Forall₂ sameExceptChurn sl1 sl2) (m : ℕ) :
    aggBomMrr sl1 m = aggBomMrr sl2 m := by
  induction h with
  | nil => rfl
  | cons hab _ ih =>
    simp only [aggBomMrr, List.filter_cons] at *
    rw [hab.2.1]
    split
    · simp only [List.map_cons, List.sum_cons, ih, hab.2.2.1]
    · exact ih

theorem aggBomAccounts_congr {sl1 sl2 : List ServiceRow}
    (h : List.Forall₂ sameExceptChurn sl1 sl2) (m : ℕ) :
    aggBomAccounts sl1 m = aggBomAccounts sl2 m := by
  induction h with
  | nil => rfl
  | cons hab _ ih =>
    simp only [aggBomAccounts, List.filter_cons] at *
    rw [hab.2.1]
    split
    · simp only [List.map_cons, List.sum_cons, ih, hab.2.2.2.2.1]
    · exact ih

theorem months_congr {sl1 sl2 : List ServiceRow}
    (h : List.Forall₂ sameExceptChurn sl1 sl2) :
    sl1.map (·.month) = sl2.map (·.month) := by
  induction h with
  | nil => rfl
  | cons hab _ ih => simp only [List.map_cons, ih, hab.2.1]

theorem monthRange_congr {sl1 sl2 : List ServiceRow}
    (h : List.Forall₂ sameExceptChurn sl1 sl2) :
    monthRange sl1 = monthRange sl2 := by
  unfold monthRange minServiceMonth maxServiceMonth
  rw [months_congr h]

theorem gtmGo_congr (ml : List MarketingRow) {sl1 sl2 : List ServiceRow}
    (h : List.Forall₂ sameExceptChurn sl1 sl2) :
    ∀ (ms : List ℕ) (carry : Option (ℚ × ℚ × ℚ)),
      gtmGo ml sl1 ms carry = gtmGo ml sl2 ms carry := by
  intro ms
  induction ms with
  | nil => intro carry; rfl
  | cons m ms ih =>
    intro carry
    simp only [gtmGo, hasServiceRows_congr h, aggNewCustomers_congr h,
      aggBomMrr_congr h, aggBomAccounts_congr h, ih]

/-- The whole merged/forward-filled GTM frame ignores `churn_mrr`. -/
theorem gtmRows_congr (ml : List MarketingRow) {sl1 sl2 : List ServiceRow}
    (h : List.Forall₂ sameExceptChurn sl1 sl2) :
    gtmRows ml sl1 = gtmRows ml sl2 := by
  unfold gtmRows
  rw [monthRange_congr h, gtmGo_congr ml h]

/-- C7: `ltv = (arpa * GROSS_MARGIN) / benchmark_monthly_churn` with the
fixed constants 0.80 and 0.004; the LTV column depends only on the ARPA
column (equal ARPA gives equal LTV), and over the full GTM pipeline it is
unchanged when every service row's `churn_mrr` is replaced by anything
else — the period's actual churn never enters the LTV. -/
theorem ltv_fixed_benchmark :
    (∀ r : GtmRow, r.bom_accounts ≠ 0 →
      gtmLtv r = .fin (r.bom_mrr / r.bom_accounts * GROSS_MARGIN / benchmarkMonthlyChurn)) ∧
    (∀ r1 r2 : GtmRow, gtmArpa r1 = gtmArpa r2 → gtmLtv r1 = gtmLtv r2) ∧
    (∀ (ml : List MarketingRow) (sl1 sl2 : List ServiceRow),
      List.Forall₂ sameExceptChurn sl1 sl2 →
      (gtmRows ml sl1).map gtmLtv = (gtmRows ml sl2).map gtmLtv) := by
  refine ⟨fun r h => ?_, fun r1 r2 h => ?_, fun ml sl1 sl2 h => ?_⟩
  · simp only [gtmLtv, gtmArpa, pdiv, h, if_neg h, if_false, PFloat.mulC, PFloat.divC,
      benchmarkMonthlyChurn]
    norm_num
  · simp only [gtmLtv, h]
  · rw [gtmRows_congr ml h]

/-- Witness for `ltv_fixed_benchmark` at concrete inputs. -/
theorem ltv_fixed_benchmark_witness :
    gtmLtv { month := 0, total_marketing_cost := 0, total_mqls := 0,
             total_new_customers := 0, bom_mrr := 500, bom_accounts := 5 }
      = .fin (500 / 5 * GROSS_MARGIN / benchmarkMonthlyChurn) ∧
    (gtmRows [] []).map gtmLtv = (gtmRows [] []).map gtmLtv :=
  ⟨ltv_fixed_benchmark.1 _ (by norm_num),
   ltv_fixed_benchmark.2.2 [] [] [] List.Forall₂.nil⟩

theorem cumsumFrom_length (a : ℚ) (l : List ℚ) : (cumsumFrom a l).length = l.length := by
  induction l generalizing a with
  | nil => rfl
  | cons x xs ih => simp only [cumsumFrom, List.length_cons, ih]

theorem cumsum_length (l : List ℚ) : (cumsum l).length = l.length :=
  cumsumFrom_length 0 l

theorem cumsumFrom_getD_succ (l : List ℚ) :
    ∀ (a : ℚ) (i : ℕ), i + 1 < l.length →
      (cumsumFrom a l).getD (i + 1) 0
        = (cumsumFrom a l).getD i 0 + l.getD (i + 1) 0 := by
  induction l with
  | nil => intro a i h; simp at h
  | cons x xs ih =>
    intro a i h
    match i with
    | 0 =>
      match xs, h with
      | y :: ys, _ => simp [cumsumFrom, List.getD]
    | j + 1 =>
      have hd : j + 1 < xs.length := by
        simpa using h
      simpa [cumsumFrom, List.getD_cons_succ] using ih (a + x) j hd

/-- C8: both cumulative columns are inclusive left-to-right running sums
(`cum[0] = value[0]`, `cum[i] = cum[i-1] + value[i]`); the per-month
spend being cumulated is `total_marketing_cost * SALES_COST_MULTIPLIER`;
and `cumulative_cac` at every month is (the pandas division of) cumulative
spend over cumulative new customers at that month. -/
theorem cumulative_cac_running_sums (ml : List MarketingRow) (sl : List ServiceRow) :
    (0 < (smSpendSeq ml sl).length →
      (cumSpendSeq ml sl).getD 0 0 = (smSpendSeq ml sl).getD 0 0) ∧
    (∀ i, i + 1 < (smSpendSeq ml sl).length →
      (cumSpendSeq ml sl).getD (i + 1) 0
        = (cumSpendSeq ml sl).getD i 0 + (smSpendSeq ml sl).getD (i + 1) 0) ∧
    (0 < (newCustSeq ml sl).length →
      (cumCustSeq ml sl).getD 0 0 = (newCustSeq ml sl).getD 0 0) ∧
    (∀ i, i + 1 < (newCustSeq ml sl).length →
      (cumCustSeq ml sl).getD (i + 1) 0
        = (cumCustSeq ml sl).getD i 0 + (newCustSeq ml sl).getD (i + 1) 0) ∧
    (∀ i, i < (gtmRows ml sl).length →
      (smSpendSeq ml sl).getD i 0
        = ((gtmRows ml sl).getD i default).total_marketing_cost * SALES_COST_MULTIPLIER) ∧
    (∀ i, i < (cumCacSeq ml sl).length →
      (cumCacSeq ml sl).getD i .nan
        = pdiv ((cumSpendSeq ml sl).getD i 0) ((cumCustSeq ml sl).getD i 0)) := by
  have hgetD : ∀ {α : Type} (l : List α) (d : α) (i : ℕ) (h : i < l.length),
      l.getD i d = l.get ⟨i, h⟩ := by
    intro α l d i h
    simp [List.getD_eq_getElem?_getD, List.getElem?_eq_getElem h]
  refine ⟨fun h => ?_, fun i h => cumsumFrom_getD_succ _ 0 i h, fun h => ?_,
    fun i h => cumsumFrom_getD_succ _ 0 i h, fun i h => ?_, fun i h => ?_⟩
  · match hs : smSpendSeq ml sl with
    | [] => rw [hs] at h; simp at h
    | x :: xs => simp [cumSpendSeq, hs, cumsum, cumsumFrom, List.getD]
  · match hs : newCustSeq ml sl with
    | [] => rw [hs] at h; simp at h
    | x :: xs => simp [cumCustSeq, hs, cumsum, cumsumFrom, List.getD]
  · have hsm : i < (smSpendSeq ml sl).length := by
      simpa [smSpendSeq] using h
    rw [hgetD _ (0 : ℚ) i hsm, hgetD _ default i h]
    simp [smSpendSeq, List.get_eq_getElem]
  · have h1 : i < (cumSpendSeq ml sl).length := by
      have := h
      simp only [cumCacSeq, List.length_zipWith, lt_min_iff] at this
      exact this.1
    have h2 : i < (cumCustSeq ml sl).length := by
      have := h
      simp only [cumCacSeq, List.length_zipWith, lt_min_iff] at this
      exact this.2
    rw [hgetD _ PFloat.nan i h, hgetD _ 0 i h1, hgetD _ 0 i h2]
    simp [cumCacSeq, List.get_eq_getElem, List.getElem_zipWith]

/-- Witness for `cumulative_cac_running_sums` at a concrete two-month input. -/
theorem cumulative_cac_running_sums_witness :
    (cumSpendSeq [⟨0, 0, 100, 0, 0, 0, 0, 0⟩, ⟨1, 0, 50, 0, 0, 0, 0, 0⟩]
        [⟨0, 0, 0, 0, 0, 0, 0, 0, 2⟩, ⟨30, 1, 0, 0, 0, 0, 0, 0, 3⟩]).getD 1 0
      = (cumSpendSeq [⟨0, 0, 100, 0, 0, 0, 0, 0⟩, ⟨1, 0, 50, 0, 0, 0, 0, 0⟩]
          [⟨0, 0, 0, 0, 0, 0, 0, 0, 2⟩, ⟨30, 1, 0, 0, 0, 0, 0, 0, 3⟩]).getD 0 0
        + (smSpendSeq [⟨0, 0, 100, 0, 0, 0, 0, 0⟩, ⟨1, 0, 50, 0, 0, 0, 0, 0⟩]
            [⟨0, 0, 0, 0, 0, 0, 0, 0, 2⟩, ⟨30, 1, 0, 0, 0, 0, 0, 0, 3⟩]).getD 1 0 :=
  (cumulative_cac_running_sums _ _).2.1 0 (by decide)

theorem foldl_latest_eq (r : ServiceRow) :
    ∀ (xs : List ServiceRow) (acc : ServiceRow),
      (∀ x ∈ xs, x = r ∨ x.date < r.date) →
      (acc = r ∨ acc.date < r.date) →
      (r ∈ xs ∨ acc = r) →
      xs.foldl (fun best x => if best.date < x.date then x else best) acc = r := by
  intro xs
  induction xs with
  | nil =>
    intro acc _ _ hmem
    rcases hmem with h | h
    · simp at h
    · simpa using h
  | cons x xs ih =>
    intro acc hall hacc hmem
    have hx := hall x (List.mem_cons_self x xs)
    have hall' : ∀ y ∈ xs, y = r ∨ y.date < r.date :=
      fun y hy => hall y (List.mem_cons_of_mem x hy)
    simp only [List.foldl_cons]
    by_cases hc : acc.date < x.date
    · rw [if_pos hc]
      rcases hx with rfl | hxlt
      · exact ih x hall' (Or.inl rfl) (Or.inr rfl)
      · have hrxs : r ∈ xs := by
          rcases hmem with hmem | rfl
          · rcases List.mem_cons.mp hmem with rfl | hm
            · exact absurd hxlt (lt_irrefl _)
            · exact hm
          · exact absurd (hc.trans hxlt) (lt_irrefl _)
        exact ih x hall' (Or.inr hxlt) (Or.inl hrxs)
    · rw [if_neg hc]
      rcases hx with rfl | hxlt
      · have hax : acc = x := by
          rcases hacc with h | h
          · exact h
          · exact absurd h hc
        subst hax
        exact ih acc hall' (Or.inl rfl) (Or.inr rfl)
      · have hmem' : r ∈ xs ∨ acc = r := by
          rcases hmem with hmem | rfl
          · rcases List.mem_cons.mp hmem with rfl | hm
            · exact absurd hxlt (lt_irrefl _)
            · exact Or.inl hm
          · exact Or.inr rfl
        exact ih acc hall' hacc hmem'

/-- C10: the simulator baselines are pooled dataset-wide totals, not
averages of per-month ratios: each funnel rate is the ratio of the
corresponding column sums, the churn rate is
`sum(churn_mrr) / sum(book_of_business_bom)`, and `current_mrr` is the
`book_of_business_eom` of the single most recent service row. -/
theorem baselines_pooled (ml : List MarketingRow) (sl : List ServiceRow) :
    (marketingSum (·.mql) ml ≠ 0 → (load_baselines ml sl).mql_sal_rate
      = .fin (marketingSum (·.sal) ml / marketingSum (·.mql) ml)) ∧
    (marketingSum (·.sal) ml ≠ 0 → (load_baselines ml sl).sal_sql_rate
      = .fin (marketingSum (·.sql) ml / marketingSum (·.sal) ml)) ∧
    (marketingSum (·.sql) ml ≠ 0 → (load_baselines ml sl).win_rate
      = .fin (marketingSum (·.closed) ml / marketingSum (·.sql) ml)) ∧
    (0 < serviceSum (·.book_of_business_bom) sl → (load_baselines ml sl).churn_rate
      = serviceSum (·.churn_mrr) sl / serviceSum (·.book_of_business_bom) sl) ∧
    (∀ r ∈ sl, (∀ r' ∈ sl, r' ≠ r → r'.date < r.date) →
      (load_baselines ml sl).current_mrr = r.book_of_business_eom) := by
  refine ⟨fun h => ?_, fun h => ?_, fun h => ?_, fun h => ?_, fun r hr hmax => ?_⟩
  · simp [load_baselines, pdiv, h]
  · simp [load_baselines, pdiv, h]
  · simp [load_baselines, pdiv, h]
  · simp [load_baselines, h]
  · have hne : sl ≠ [] := by
      intro hnil
      rw [hnil] at hr
      simp at hr
    have hhead : sl.headD default ∈ sl := by
      match sl, hne with
      | x :: xs, _ => exact List.mem_cons_self x xs
    have hlatest : latestServiceRow sl = r := by
      unfold latestServiceRow
      apply foldl_latest_eq
      · intro x hx
        by_cases hxr : x = r
        · exact Or.inl hxr
        · exact Or.inr (hmax x hx hxr)
      · by_cases hxr : sl.headD default = r
        · exact Or.inl hxr
        · exact Or.inr (hmax _ hhead hxr)
      · exact Or.inl hr
    simp [load_baselines, hlatest]

/-- Witness for `baselines_pooled` at a concrete two-row dataset. -/
theorem baselines_pooled_witness :
    (load_baselines [⟨0, 0, 0, 100, 61, 12, 2, 0⟩]
        [⟨0, 0, 1000, 1100, 10, 4, 0, 0, 2⟩, ⟨30, 1, 1100, 1300, 11, 0, 0, 0, 3⟩]).mql_sal_rate
      = .fin (marketingSum (·.sal) [⟨0, 0, 0, 100, 61, 12, 2, 0⟩]
          / marketingSum (·.mql) [⟨0, 0, 0, 100, 61, 12, 2, 0⟩]) ∧
    (load_baselines [⟨0, 0, 0, 100, 61, 12, 2, 0⟩]
        [⟨0, 0, 1000, 1100, 10, 4, 0, 0, 2⟩, ⟨30, 1, 1100, 1300, 11, 0, 0, 0, 3⟩]).current_mrr
      = 1300 :=
  ⟨(baselines_pooled _ _).1 (by norm_num [marketingSum]),
   (baselines_pooled [⟨0, 0, 0, 100, 61, 12, 2, 0⟩] _).2.2.2.2
     ⟨30, 1, 1100, 1300, 11, 0, 0, 0, 3⟩ (by decide) (by decide)⟩

theorem sorted_getD_mono {s : List ℚ} (hs : s.Sorted (· ≤ ·)) {i j : ℕ}
    (hij : i ≤ j) (hj : j < s.length) : s.getD i 0 ≤ s.getD j 0 := by
  have hi : i < s.length := lt_of_le_of_lt hij hj
  have h1 : s.getD i 0 = s.get ⟨i, hi⟩ := by
    simp [List.getD_eq_getElem?_getD, List.getElem?_eq_getElem hi]
  have h2 : s.getD j 0 = s.get ⟨j, hj⟩ := by
    simp [List.getD_eq_getElem?_getD, List.getElem?_eq_getElem hj]
  haveI : IsRefl ℚ (· ≤ ·) := ⟨le_refl⟩
  rw [h1, h2]
  exact hs.rel_get_of_le (Fin.mk_le_mk.mpr hij)

theorem interp_mono (s : List ℚ) (hs : s.Sorted (· ≤ ·)) (hn : 0 < s.length)
    (h1 h2 : ℚ) (hh1 : 0 ≤ h1) (hh12 : h1 ≤ h2) (hh2 : h2 ≤ (s.length : ℚ) - 1) :
    s.getD (⌊h1⌋).toNat 0 + (h1 - ((⌊h1⌋).toNat : ℚ)) *
        (s.getD (min ((⌊h1⌋).toNat + 1) (s.length - 1)) 0 - s.getD (⌊h1⌋).toNat 0)
      ≤ s.getD (⌊h2⌋).toNat 0 + (h2 - ((⌊h2⌋).toNat : ℚ)) *
        (s.getD (min ((⌊h2⌋).toNat + 1) (s.length - 1)) 0 - s.getD (⌊h2⌋).toNat 0) := by
  set n := s.length with hn_def
  set i1 := (⌊h1⌋).toNat with hi1_def
  set i2 := (⌊h2⌋).toNat with hi2_def
  have hh1' : 0 ≤ h2 := le_trans hh1 hh12
  have hfloor1 : (0 : ℤ) ≤ ⌊h1⌋ := Int.floor_nonneg.mpr hh1
  have hfloor2 : (0 : ℤ) ≤ ⌊h2⌋ := Int.floor_nonneg.mpr hh1'
  have hcast1 : (i1 : ℚ) = (⌊h1⌋ : ℚ) := by
    rw [hi1_def]
    exact_mod_cast congrArg (fun z : ℤ => (z : ℚ)) (Int.toNat_of_nonneg hfloor1)
  have hcast2 : (i2 : ℚ) = (⌊h2⌋ : ℚ) := by
    rw [hi2_def]
    exact_mod_cast congrArg (fun z : ℤ => (z : ℚ)) (Int.toNat_of_nonneg hfloor2)
  have hfl1 : (i1 : ℚ) ≤ h1 := by rw [hcast1]; exact Int.floor_le h1
  have hfu1 : h1 < (i1 : ℚ) + 1 := by rw [hcast1]; exact Int.lt_floor_add_one h1
  have hfl2 : (i2 : ℚ) ≤ h2 := by rw [hcast2]; exact Int.floor_le h2
  have hfloor2le : ⌊h2⌋ ≤ (n : ℤ) - 1 := by
    have ha : ⌊h2⌋ ≤ ⌊(n : ℚ) - 1⌋ := Int.floor_mono hh2
    have hb : ((n : ℚ) - 1) = (((n : ℤ) - 1 : ℤ) : ℚ) := by push_cast; ring
    rw [hb, Int.floor_intCast] at ha
    exact ha
  have hi2le : i2 ≤ n - 1 := by omega
  have hi12 : i1 ≤ i2 := by
    have := Int.floor_mono hh12
    omega
  have hb1a : s.getD i1 0 ≤ s.getD (min (i1 + 1) (n - 1)) 0 :=
    sorted_getD_mono hs (by omega) (by omega)
  have hb2a : s.getD i2 0 ≤ s.getD (min (i2 + 1) (n - 1)) 0 :=
    sorted_getD_mono hs (by omega) (by omega)
  rcases lt_or_eq_of_le hi12 with hlt | heq
  · have hstep1 : s.getD i1 0 + (h1 - (i1 : ℚ)) *
        (s.getD (min (i1 + 1) (n - 1)) 0 - s.getD i1 0)
        ≤ s.getD (min (i1 + 1) (n - 1)) 0 := by
      nlinarith [hb1a, hfu1, hfl1]
    have hstep2 : s.getD (min (i1 + 1) (n - 1)) 0 ≤ s.getD i2 0 :=
      sorted_getD_mono hs (by omega) (by omega)
    have hstep3 : s.getD i2 0 ≤ s.getD i2 0 + (h2 - (i2 : ℚ)) *
        (s.getD (min (i2 + 1) (n - 1)) 0 - s.getD i2 0) := by
      nlinarith [hb2a, hfl2]
    linarith
  · rw [heq]
    have hq12 : h1 ≤ h2 := hh12
    nlinarith [hb2a, hh12]

/-- Pandas linear-interpolation quantiles of a fixed non-empty sample are
monotone in the probability level. -/
theorem quantile_mono (l : List ℚ) (hl : l ≠ []) {p q : ℚ}
    (hp0 : 0 ≤ p) (hq1 : q ≤ 1) (hpq : p ≤ q) :
    quantile p l ≤ quantile q l := by
  have hs := List.sorted_insertionSort (· ≤ ·) l
  have hn : 0 < (List.insertionSort (· ≤ ·) l).length := by
    rw [List.length_insertionSort]
    exact List.length_pos.mpr hl
  have hN : (0 : ℚ) ≤ ((List.insertionSort (· ≤ ·) l).length : ℚ) - 1 := by
    have h1 : (1 : ℚ) ≤ ((List.insertionSort (· ≤ ·) l).length : ℚ) := by
      exact_mod_cast hn
    linarith
  simp only [quantile]
  exact interp_mono _ hs hn _ _ (mul_nonneg hp0 hN)
    (mul_le_mul_of_nonneg_right hpq hN) (by nlinarith)

theorem mem_topPerformers_iff {l : List (ℕ × ℚ)} (hnd : (l.map Prod.fst).Nodup)
    {rv : ℕ × ℚ} (h : rv ∈ l) :
    rv.1 ∈ topPerformers l ↔ topThreshold l ≤ rv.2 := by
  constructor
  · intro hm
    simp only [topPerformers, List.mem_map, List.mem_filter] at hm
    obtain ⟨b, ⟨hbl, hbp⟩, hb1⟩ := hm
    have hbrv : b = rv := List.inj_on_of_nodup_map hnd hbl h hb1
    rw [← hbrv]
    exact of_decide_eq_true hbp
  · intro hp
    simp only [topPerformers, List.mem_map, List.mem_filter]
    exact ⟨rv, ⟨h, decide_eq_true hp⟩, rfl⟩

theorem mem_bottomPerformers_iff {l : List (ℕ × ℚ)} (hnd : (l.map Prod.fst).Nodup)
    {rv : ℕ × ℚ} (h : rv ∈ l) :
    rv.1 ∈ bottomPerformers l ↔ rv.2 ≤ bottomThreshold l := by
  constructor
  · intro hm
    simp only [bottomPerformers, List.mem_map, List.mem_filter] at hm
    obtain ⟨b, ⟨hbl, hbp⟩, hb1⟩ := hm
    have hbrv : b = rv := List.inj_on_of_nodup_map hnd hbl h hb1
    rw [← hbrv]
    exact of_decide_eq_true hbp
  · intro hp
    simp only [bottomPerformers, List.mem_map, List.mem_filter]
    exact ⟨rv, ⟨h, decide_eq_true hp⟩, rfl⟩

theorem mem_middlePerformers_iff {l : List (ℕ × ℚ)} (hnd : (l.map Prod.fst).Nodup)
    {rv : ℕ × ℚ} (h : rv ∈ l) :
    rv.1 ∈ middlePerformers l ↔
      bottomThreshold l < rv.2 ∧ rv.2 < topThreshold l := by
  constructor
  · intro hm
    simp only [middlePerformers, List.mem_map, List.mem_filter] at hm
    obtain ⟨b, ⟨hbl, hbp⟩, hb1⟩ := hm
    have hbrv : b = rv := List.inj_on_of_nodup_map hnd hbl h hb1
    rw [← hbrv]
    exact of_decide_eq_true hbp
  · intro hp
    simp only [middlePerformers, List.mem_map, List.mem_filter]
    exact ⟨rv, ⟨h, decide_eq_true hp⟩, rfl⟩

/-- C2 counterexample: with a single rep of mean attainment 1, the 10th and
80th percentile thresholds coincide at 1, so the rep is listed in the top
tier and in the bottom tier simultaneously — it is double-counted, not in
exactly one tier. -/
theorem tier_double_count_counterexample :
    topPerformers [(1, (1 : ℚ))] = [1] ∧ bottomPerformers [(1, (1 : ℚ))] = [1] := by
  constructor <;>
    norm_num [topPerformers, bottomPerformers, topThreshold, bottomThreshold,
      quantile, List.insertionSort, List.orderedInsert, List.filter]

/-- C2 amended: the top threshold is always ≥ the bottom threshold and every
rep lands in at least one tier; a rep is in both extremes exactly when its
metric equals the two coinciding thresholds (so reps can be double-counted
then); the middle tier never overlaps an extreme; and whenever the two
thresholds differ the three tiers are an exact partition. -/
theorem tier_classifier_amended (l : List (ℕ × ℚ)) (hl : l ≠ [])
    (hnd : (l.map Prod.fst).Nodup) :
    bottomThreshold l ≤ topThreshold l ∧
    ∀ rv ∈ l,
      (rv.1 ∈ topPerformers l ∨ rv.1 ∈ middlePerformers l ∨ rv.1 ∈ bottomPerformers l) ∧
      (rv.1 ∈ topPerformers l → rv.1 ∈ bottomPerformers l →
        rv.2 = topThreshold l ∧ rv.2 = bottomThreshold l) ∧
      (¬ (rv.1 ∈ middlePerformers l ∧ rv.1 ∈ topPerformers l)) ∧
      (¬ (rv.1 ∈ middlePerformers l ∧ rv.1 ∈ bottomPerformers l)) ∧
      (bottomThreshold l < topThreshold l →
        (rv.1 ∈ topPerformers l ∧ rv.1 ∉ middlePerformers l ∧ rv.1 ∉ bottomPerformers l)
        ∨ (rv.1 ∉ topPerformers l ∧ rv.1 ∈ middlePerformers l ∧ rv.1 ∉ bottomPerformers l)
        ∨ (rv.1 ∉ topPerformers l ∧ rv.1 ∉ middlePerformers l ∧ rv.1 ∈ bottomPerformers l)) := by
  have hmapne : l.map (·.2) ≠ [] := by
    cases l with
    | nil => exact absurd rfl hl
    | cons x xs => simp
  have hbt : bottomThreshold l ≤ topThreshold l := by
    unfold bottomThreshold topThreshold
    exact @quantile_mono (l.map (·.2)) hmapne (1 / 10) (4 / 5)
      (by norm_num) (by norm_num) (by norm_num)
  refine ⟨hbt, fun rv hrv => ?_⟩
  have htop := mem_topPerformers_iff hnd hrv
  have hbot := mem_bottomPerformers_iff hnd hrv
  have hmid := mem_middlePerformers_iff hnd hrv
  refine ⟨?_, ?_, ?_, ?_, ?_⟩
  · rcases le_or_lt (topThreshold l) rv.2 with h | h
    · exact Or.inl (htop.mpr h)
    · rcases le_or_lt rv.2 (bottomThreshold l) with h2 | h2
      · exact Or.inr (Or.inr (hbot.mpr h2))
      · exact Or.inr (Or.inl (hmid.mpr ⟨h2, h⟩))
  · intro h1 h2
    have ht := htop.mp h1
    have hb := hbot.mp h2
    constructor <;> linarith
  · rintro ⟨hm, ht⟩
    obtain ⟨hgt, hlt⟩ := hmid.mp hm
    exact absurd (htop.mp ht) (not_le.mpr hlt)
  · rintro ⟨hm, hb⟩
    obtain ⟨hgt, hlt⟩ := hmid.mp hm
    exact absurd (hbot.mp hb) (not_le.mpr hgt)
  · intro hBT
    rcases le_or_lt (topThreshold l) rv.2 with h | h
    · refine Or.inl ⟨htop.mpr h, fun hm => ?_, fun hb => ?_⟩
      · obtain ⟨_, hlt⟩ := hmid.mp hm
        linarith
      · have := hbot.mp hb
        linarith
    · rcases le_or_lt rv.2 (bottomThreshold l) with h2 | h2
      · refine Or.inr (Or.inr ⟨fun ht => ?_, fun hm => ?_, hbot.mpr h2⟩)
        · have := htop.mp ht
          linarith
        · obtain ⟨hgt, _⟩ := hmid.mp hm
          linarith
      · refine Or.inr (Or.inl ⟨fun ht => ?_, hmid.mpr ⟨h2, h⟩, fun hb => ?_⟩)
        · have := htop.mp ht
          linarith
        · have := hbot.mp hb
          linarith

/-- Witness for `tier_classifier_amended` on a concrete two-rep mapping. -/
theorem tier_classifier_amended_witness :
    bottomThreshold [(1, (0 : ℚ)), (2, 1)] ≤ topThreshold [(1, (0 : ℚ)), (2, 1)] :=
  (tier_classifier_amended [(1, (0 : ℚ)), (2, 1)] (by simp) (by simp)).1

/-- The aggregated service triple (new customers, BOM MRR, BOM accounts)
of one month. -/
def aggTriple (sl : List ServiceRow) (m : ℕ) : ℚ × ℚ × ℚ :=
  (aggNewCustomers sl m, aggBomMrr sl m, aggBomAccounts sl m)

/-- The latest month `≤ m` that has service rows, if any. -/
def lastServiceLE (sl : List ServiceRow) : ℕ → Option ℕ
  | 0 => if hasServiceRows sl 0 then some 0 else none
  | m + 1 => if hasServiceRows sl (m + 1) then some (m + 1) else lastServiceLE sl m

/-- The latest month `< m` that has service rows, if any. -/
def lastServiceLT (sl : List ServiceRow) : ℕ → Option ℕ
  | 0 => none
  | m + 1 => lastServiceLE sl m

theorem lastServiceLE_eq_cases (sl : List ServiceRow) (m : ℕ) :
    lastServiceLE sl m
      = if hasServiceRows sl m then some m else lastServiceLT sl m := by
  cases m <;> rfl

theorem lastServiceLT_eq_none (sl : List ServiceRow) :
    ∀ m, (∀ k, k < m → hasServiceRows sl k = false) → lastServiceLT sl m = none := by
  intro m
  induction m with
  | zero => intro _; rfl
  | succ m ih =>
    intro h
    show lastServiceLE sl m = none
    rw [lastServiceLE_eq_cases, h m (by omega)]
    simpa using ih (fun k hk => h k (by omega))

theorem lastServiceLE_isSome (sl : List ServiceRow) (m0 : ℕ)
    (h0 : hasServiceRows sl m0 = true) :
    ∀ m, m0 ≤ m → ∃ m', lastServiceLE sl m = some m' := by
  intro m
  induction m with
  | zero =>
    intro hm
    have : m0 = 0 := Nat.le_zero.mp hm
    subst this
    exact ⟨0, by simp [lastServiceLE, h0]⟩
  | succ m ih =>
    intro hm
    by_cases h : hasServiceRows sl (m + 1)
    · exact ⟨m + 1, by simp [lastServiceLE, h]⟩
    · have hne : m0 ≠ m + 1 := by
        intro hEq
        rw [hEq] at h0
        exact h (by simp [h0])
      obtain ⟨m', hm'⟩ := ih (by omega)
      exact ⟨m', by simpa [lastServiceLE, h] using hm'⟩

theorem lastServiceLE_spec (sl : List ServiceRow) :
    ∀ m m', lastServiceLE sl m = some m' →
      m' ≤ m ∧ hasServiceRows sl m' = true ∧
      ∀ k, m' < k → k ≤ m → hasServiceRows sl k = false := by
  intro m
  induction m with
  | zero =>
    intro m' hm'
    by_cases h : hasServiceRows sl 0
    · simp only [lastServiceLE, h, if_pos, if_true] at hm'
      obtain rfl : (0 : ℕ) = m' := by injection hm'
      exact ⟨le_refl _, h, fun k hk1 hk2 => by omega⟩
    · simp [lastServiceLE, h] at hm'
  | succ m ih =>
    intro m' hm'
    by_cases h : hasServiceRows sl (m + 1)
    · simp only [lastServiceLE, h, if_true] at hm'
      obtain rfl : m + 1 = m' := by injection hm'
      exact ⟨le_refl _, h, fun k hk1 hk2 => by omega⟩
    · simp only [lastServiceLE, h, if_false, Bool.false_eq_true] at hm'
      obtain ⟨h1, h2, h3⟩ := ih m' hm'
      refine ⟨by omega, h2, fun k hk1 hk2 => ?_⟩
      rcases Nat.lt_or_ge k (m + 1) with hk | hk
      · exact h3 k hk1 (by omega)
      · have : k = m + 1 := by omega
        subst this
        simpa using h

theorem gtmGo_months (ml : List MarketingRow) (sl : List ServiceRow) :
    ∀ (ms : List ℕ) (carry : Option (ℚ × ℚ × ℚ)),
      (gtmGo ml sl ms carry).map (·.month) = ms := by
  intro ms
  induction ms with
  | nil => intro carry; rfl
  | cons m ms ih => intro carry; simp only [gtmGo, List.map_cons, ih]

theorem gtmGo_spec (ml : List MarketingRow) (sl : List ServiceRow) :
    ∀ (n a : ℕ),
      ∀ r ∈ gtmGo ml sl (List.range' a n) ((lastServiceLT sl a).map (aggTriple sl)),
        r.month ∈ List.range' a n ∧
        r.total_marketing_cost = aggMarketingCost ml r.month ∧
        r.total_mqls = aggMqls ml r.month ∧
        (r.total_new_customers, r.bom_mrr, r.bom_accounts)
          = ffillTriple ((lastServiceLE sl r.month).map (aggTriple sl)) := by
  intro n
  induction n with
  | zero =>
    intro a r hr
    simp [gtmGo] at hr
  | succ n ih =>
    intro a r hr
    rw [List.range'_succ] at hr
    have hcur : (if hasServiceRows sl a then
          some (aggNewCustomers sl a, aggBomMrr sl a, aggBomAccounts sl a)
        else (lastServiceLT sl a).map (aggTriple sl))
        = (lastServiceLE sl a).map (aggTriple sl) := by
      rw [lastServiceLE_eq_cases]
      by_cases h : hasServiceRows sl a
      · simp [h, aggTriple]
      · simp [h]
    simp only [gtmGo] at hr
    rw [hcur] at hr
    rcases List.mem_cons.mp hr with rfl | htail
    · refine ⟨?_, rfl, rfl, rfl⟩
      rw [List.range'_succ]
      exact List.mem_cons_self _ _
    · have htail' := ih (a + 1) r (by simpa using htail)
      refine ⟨?_, htail'.2.1, htail'.2.2.1, htail'.2.2.2⟩
      rw [List.range'_succ]
      exact List.mem_cons_of_mem _ htail'.1

theorem minServiceMonth_le {sl : List ServiceRow} {r : ServiceRow} (hr : r ∈ sl) :
    minServiceMonth sl ≤ r.month := by
  unfold minServiceMonth
  cases hmin : (sl.map (·.month)).min? with
  | none =>
    have : sl.map (·.month) = [] := List.min?_eq_none_iff.mp hmin
    rw [List.map_eq_nil_iff] at this
    subst this
    simp at hr
  | some m =>
    have hiff := (List.min?_eq_some_iff (fun a => le_refl a)
      (fun a b => min_choice a b) (fun a b c => le_min_iff)).mp hmin
    have := hiff.2 r.month (List.mem_map.mpr ⟨r, hr, rfl⟩)
    simpa using this

theorem hasService_lt_min (sl : List ServiceRow) (k : ℕ)
    (hk : k < minServiceMonth sl) : hasServiceRows sl k = false := by
  by_contra h
  rw [Bool.not_eq_false, hasServiceRows, List.any_eq_true] at h
  obtain ⟨r, hr, hrk⟩ := h
  have hkm : r.month = k := by simpa using hrk
  have := minServiceMonth_le hr
  omega

theorem hasService_min (sl : List ServiceRow) (hsl : sl ≠ []) :
    hasServiceRows sl (minServiceMonth sl) = true := by
  cases hmin : (sl.map (·.month)).min? with
  | none =>
    have : sl.map (·.month) = [] := List.min?_eq_none_iff.mp hmin
    rw [List.map_eq_nil_iff] at this
    exact absurd this hsl
  | some m =>
    have hiff := (List.min?_eq_some_iff (fun a => le_refl a)
      (fun a b => min_choice a b) (fun a b c => le_min_iff)).mp hmin
    obtain ⟨r, hr, hrm⟩ := List.mem_map.mp hiff.1
    rw [hasServiceRows, List.any_eq_true]
    refine ⟨r, hr, ?_⟩
    simp [minServiceMonth, hmin, hrm]

theorem aggMarketingCost_of_no_rows {ml : List MarketingRow} {m : ℕ}
    (h : hasMarketingRows ml m = false) : aggMarketingCost ml m = 0 := by
  unfold aggMarketingCost
  rw [List.filter_eq_nil_iff.mpr (by simpa [hasMarketingRows, List.any_eq_false] using h)]
  rfl

theorem aggMqls_of_no_rows {ml : List MarketingRow} {m : ℕ}
    (h : hasMarketingRows ml m = false) : aggMqls ml m = 0 := by
  unfold aggMqls
  rw [List.filter_eq_nil_iff.mpr (by simpa [hasMarketingRows, List.any_eq_false] using h)]
  rfl

/-- C3 amended: the GTM month axis is the full service month range; a
synthesized month (no marketing and no service rows) has its additive
marketing fields (`total_marketing_cost`, `total_mqls`) equal to 0, but all
three forward-filled service columns — the balance fields `bom_mrr` and
`bom_accounts` AND the additive `total_new_customers` — are carried forward
from the nearest preceding month that has service rows (`total_new_customers`
is forward-filled too, not zero-filled as claimed). -/
theorem forward_fill_amended (ml : List MarketingRow) (sl : List ServiceRow)
    (hsl : sl ≠ []) :
    (gtmRows ml sl).map (·.month) = monthRange sl ∧
    ∀ r ∈ gtmRows ml sl,
      hasServiceRows sl r.month = false → hasMarketingRows ml r.month = false →
      r.total_marketing_cost = 0 ∧ r.total_mqls = 0 ∧
      ∃ m', m' < r.month ∧ hasServiceRows sl m' = true ∧
        (∀ k, m' < k → k ≤ r.month → hasServiceRows sl k = false) ∧
        r.total_new_customers = aggNewCustomers sl m' ∧
        r.bom_mrr = aggBomMrr sl m' ∧
        r.bom_accounts = aggBomAccounts sl m' := by
  have hnone : lastServiceLT sl (minServiceMonth sl) = none :=
    lastServiceLT_eq_none sl _ (fun k hk => hasService_lt_min sl k hk)
  have hrows : gtmRows ml sl
      = gtmGo ml sl (List.range' (minServiceMonth sl)
          (maxServiceMonth sl + 1 - minServiceMonth sl))
          ((lastServiceLT sl (minServiceMonth sl)).map (aggTriple sl)) := by
    rw [hnone]
    rfl
  constructor
  · rw [gtmRows, gtmGo_months]
  · intro r hr hserv hmkt
    rw [hrows] at hr
    have hspec := gtmGo_spec ml sl _ _ r hr
    have hm0le : minServiceMonth sl ≤ r.month := (List.mem_range'_1.mp hspec.1).1
    refine ⟨by rw [hspec.2.1]; exact aggMarketingCost_of_no_rows hmkt,
      by rw [hspec.2.2.1]; exact aggMqls_of_no_rows hmkt, ?_⟩
    obtain ⟨m', hm'⟩ :=
      lastServiceLE_isSome sl _ (hasService_min sl hsl) r.month hm0le
    obtain ⟨hle, hhas, hnomid⟩ := lastServiceLE_spec sl r.month m' hm'
    have hmne : m' ≠ r.month := by
      intro hEq
      rw [hEq, hserv] at hhas
      exact Bool.false_ne_true hhas
    have htriple := hspec.2.2.2
    rw [hm'] at htriple
    simp only [Option.map_some', ffillTriple, Option.getD_some, aggTriple] at htriple
    have h1 : r.total_new_customers = aggNewCustomers sl m' := congrArg Prod.fst htriple
    have h23 := congrArg Prod.snd htriple
    have h2 : r.bom_mrr = aggBomMrr sl m' := congrArg Prod.fst h23
    have h3 : r.bom_accounts = aggBomAccounts sl m' := congrArg Prod.snd h23
    exact ⟨m', by omega, hhas, hnomid, h1, h2, h3⟩

/-- A service table with rows in months 0 and 2 only; month 0 has 7 new
customers.  Month 1 is synthesized by the GTM pipeline. -/
def c3ServiceRows : List ServiceRow :=
  [⟨0, 0, 0, 0, 0, 0, 0, 0, 7⟩, ⟨60, 2, 0, 0, 0, 0, 0, 0, 1⟩]

/-- C3 counterexample: month 1 has no source rows at all, yet its
`total_new_customers` in the GTM frame is the forward-filled 7 from
month 0 — the additive new-customers field of a synthesized month is NOT
zero-filled. -/
theorem forward_fill_counterexample :
    hasServiceRows c3ServiceRows 1 = false ∧
    hasMarketingRows ([] : List MarketingRow) 1 = false ∧
    ((gtmRows [] c3ServiceRows).getD 1 default).month = 1 ∧
    ((gtmRows [] c3ServiceRows).getD 1 default).total_new_customers = 7 ∧
    (7 : ℚ) ≠ 0 := by
  refine ⟨by decide, by decide, ?_, ?_, by norm_num⟩ <;>
    norm_num [gtmRows, gtmGo, monthRange, minServiceMonth, maxServiceMonth,
      c3ServiceRows, hasServiceRows, aggNewCustomers, aggBomMrr, aggBomAccounts,
      aggMarketingCost, aggMqls, ffillTriple, List.min?, List.max?, List.range',
      List.filter_cons, List.getD]

/-- Witness for `forward_fill_amended` on the concrete two-month table. -/
theorem forward_fill_amended_witness :
    (gtmRows [] c3ServiceRows).map (·.month) = monthRange c3ServiceRows :=
  (forward_fill_amended [] c3ServiceRows (by simp [c3ServiceRows])).1

theorem filter_ge_eq_dropWhile (s : ℕ) :
    ∀ L : List GtmCacRow, L.Pairwise (fun a b => a.month < b.month) →
      L.filter (fun r => decide (s ≤ r.month)) = L.dropWhile (fun r => decide (r.month < s)) := by
  intro L
  induction L with
  | nil => intro _; rfl
  | cons x xs ih =>
    intro hp
    obtain ⟨hall, hxs⟩ := List.pairwise_cons.mp hp
    by_cases hx : s ≤ x.month
    · have h1 : ¬ x.month < s := by omega
      simp only [List.filter_cons, List.dropWhile_cons, decide_eq_true hx,
        decide_eq_false h1, if_true, if_false, Bool.false_eq_true]
      congr 1
      rw [List.filter_eq_self]
      intro y hy
      have := hall y hy
      exact decide_eq_true (by omega)
    · have h1 : x.month < s := by omega
      simp only [List.filter_cons, List.dropWhile_cons, decide_eq_false hx,
        decide_eq_true h1, if_true, Bool.false_eq_true, if_false]
      exact ih hxs

theorem getLast?_dropWhile_of_ne {α : Type} (p : α → Bool) :
    ∀ L : List α, L.dropWhile p ≠ [] → (L.dropWhile p).getLast? = L.getLast? := by
  intro L
  induction L with
  | nil => intro h; exact absurd rfl h
  | cons x xs ih =>
    intro h
    by_cases hx : p x
    · have hdw : (x :: xs).dropWhile p = xs.dropWhile p := by
        simp [List.dropWhile_cons, hx]
      rw [hdw] at h ⊢
      have hxs : xs ≠ [] := by
        intro hnil
        rw [hnil] at h
        exact h rfl
      rw [ih h]
      match xs, hxs with
      | y :: ys, _ => exact (List.getLast?_cons_cons).symm
    · simp [List.dropWhile_cons, hx]

theorem cumCacSeq_length (ml : List MarketingRow) (sl : List ServiceRow) :
    (cumCacSeq ml sl).length = (gtmRows ml sl).length := by
  simp [cumCacSeq, cumSpendSeq, cumCustSeq, List.length_zipWith, cumsum_length,
    smSpendSeq, newCustSeq, cumsum, cumsumFrom_length]

theorem zipWith_cac_months :
    ∀ (a : List GtmRow) (b : List PFloat), a.length ≤ b.length →
      (List.zipWith (fun r c => GtmCacRow.mk r.month c) a b).map (·.month)
        = a.map (·.month) := by
  intro a
  induction a with
  | nil => intro b _; rfl
  | cons x xs ih =>
    intro b hb
    match b, hb with
    | y :: ys, hb =>
      simp only [List.zipWith_cons_cons, List.map_cons]
      rw [ih ys (by simpa using hb)]

theorem gtmCacRows_months (ml : List MarketingRow) (sl : List ServiceRow) :
    (gtmCacRows ml sl).map (·.month) = monthRange sl := by
  rw [gtmCacRows, zipWith_cac_months _ _ (le_of_eq (cumCacSeq_length ml sl).symm)]
  rw [gtmRows, gtmGo_months]

theorem gtmCacRows_months_increasing (ml : List MarketingRow) (sl : List ServiceRow) :
    (gtmCacRows ml sl).Pairwise (fun a b => a.month < b.month) := by
  apply List.pairwise_map.mp
  rw [gtmCacRows_months]
  unfold monthRange
  exact List.pairwise_lt_range' _ _ 1

/-- C9: for a fixed end month, the reported Overall Blended CAC — the last
`cumulative_cac` of the filtered range — is the same for every choice of
filter start date (with a non-empty filter result): the cumulative sums are
built over the full dataset before filtering, so months excluded by the
start date still contribute. -/
theorem overallCac_start_indep (ml : List MarketingRow) (sl : List ServiceRow)
    (e s1 s2 : ℕ)
    (h1 : filteredGtm ml sl s1 e ≠ []) (h2 : filteredGtm ml sl s2 e ≠ []) :
    overallCac ml sl s1 e = overallCac ml sl s2 e := by
  have hpair := gtmCacRows_months_increasing ml sl
  have key : ∀ s, filteredGtm ml sl s e ≠ [] →
      (filteredGtm ml sl s e).getLast?
        = ((gtmCacRows ml sl).filter (fun r => decide (r.month ≤ e))).getLast? := by
    intro s hs
    have hpe : ((gtmCacRows ml sl).filter (fun r => decide (r.month ≤ e))).Pairwise
        (fun a b => a.month < b.month) :=
      List.Pairwise.sublist (List.filter_sublist _) hpair
    have heq : filteredGtm ml sl s e
        = ((gtmCacRows ml sl).filter (fun r => decide (r.month ≤ e))).dropWhile
            (fun r => decide (r.month < s)) := by
      rw [filteredGtm, ← List.filter_filter, filter_ge_eq_dropWhile s _ hpe]
    rw [heq]
    apply getLast?_dropWhile_of_ne
    rw [← heq]
    exact hs
  unfold overallCac
  rw [key s1 h1, key s2 h2]

/-- Witness for `overallCac_start_indep`: on the concrete three-month table
the displayed CAC for end month 2 is identical for start months 0 and 1. -/
theorem overallCac_start_indep_witness :
    overallCac [] c3ServiceRows 0 2 = overallCac [] c3ServiceRows 1 2 :=
  overallCac_start_indep [] c3ServiceRows 2 0 1
    (by norm_num [filteredGtm, gtmCacRows, gtmRows, gtmGo, monthRange,
      minServiceMonth, maxServiceMonth, c3ServiceRows, hasServiceRows,
      aggNewCustomers, aggBomMrr, aggBomAccounts, aggMarketingCost, aggMqls,
      ffillTriple, List.min?, List.max?, List.range', List.filter_cons,
      cumCacSeq, cumSpendSeq, cumCustSeq, cumsum, cumsumFrom, smSpendSeq,
      newCustSeq, List.zipWith, List.cons_ne_nil])
    (by norm_num [filteredGtm, gtmCacRows, gtmRows, gtmGo, monthRange,
      minServiceMonth, maxServiceMonth, c3ServiceRows, hasServiceRows,
      aggNewCustomers, aggBomMrr, aggBomAccounts, aggMarketingCost, aggMqls,
      ffillTriple, List.min?, List.max?, List.range', List.filter_cons,
      cumCacSeq, cumSpendSeq, cumCustSeq, cumsum, cumsumFrom, smSpendSeq,
      newCustSeq, List.zipWith, List.cons_ne_nil])
